import Mathlib

/-!
Verification of the fuji-3d-sbs-converter core against its specification.

The development shallowly embeds the two source modules:

* `src/main.py` — the RIFF/AVI chunk walker, the left/right frame pairing,
  the frame-rate string parsing, and the per-file batch loop of
  `extract_and_create_sbs_with_audio`;
* `src/main_images.py` — the MPO marker scanner
  (`parse_mpo_for_second_image`), the SBS compositor (`make_sbs`), and the
  discovery/batch logic of `mpo_to_sbs`.

Byte buffers are `List Nat` (each entry one byte).  File positions are `Nat`.
External collaborators (the JPEG codec, ffmpeg/ffprobe processes, the
filesystem) are modelled at their interfaces only, as the specification
directs: decoding is an arbitrary `Bytes → Option Img` function, process
output is a `String` input, and the filesystem is a record of query
functions.
-/

abbrev Bytes := List Nat

/-- Model of Python `f.read(k)` on a buffer: returns the bytes actually read
(possibly fewer than `k` near end of file) and the new file position. -/
def readB (buf : Bytes) (pos k : Nat) : Bytes × Nat :=
  let bs := (buf.drop pos).take k
  (bs, pos + bs.length)

/-- Little-endian 32-bit decode, as `struct.unpack('<I', ...)` does on the
4 size bytes of a chunk header. -/
def le32 : Bytes → Nat
  | [a, b, c, d] => a + 256 * b + 65536 * c + 16777216 * d
  | _ => 0

/-- Little-endian 32-bit encode (used by the well-formed-container generator). -/
def encLE32 (n : Nat) : Bytes :=
  [n % 256, n / 256 % 256, n / 65536 % 256, n / 16777216 % 256]

/-- Characters stripped by Python `str.strip()` (ASCII range). -/
def isPySpace (c : Char) : Bool :=
  c = ' ' || c = '\t' || c = '\n' || c = '\r' || c = '\x0b' || c = '\x0c' ||
  c = '\x1c' || c = '\x1d' || c = '\x1e' || c = '\x1f'

/-- Python `str.strip()` on a character list. -/
def stripChars (cs : List Char) : List Char :=
  ((cs.dropWhile isPySpace).reverse.dropWhile isPySpace).reverse

/-- Python `bytes.decode('ascii', errors='ignore')`: non-ASCII bytes are
dropped, the rest become characters. -/
def decodeIgnore (bs : Bytes) : List Char :=
  (bs.filter (fun b => b < 128)).map Char.ofNat

/-- The decoded-and-stripped chunk identifier, as computed by
`chunk_id_bytes.decode('ascii', errors='ignore').strip()` in `src/main.py`. -/
def chunkIdOf (bs : Bytes) : List Char :=
  stripChars (decodeIgnore bs)

/-! ## MPO marker scanner (`src/main_images.py`, `parse_mpo_for_second_image`) -/

/-- Does a 4-byte JPEG start marker (`FF D8 FF E1` or `FF D8 FF E0`) begin at
offset `i`?  Mirrors the tuple comparison in the Python scan loop. -/
def match4 (buf : Bytes) (i : Nat) : Bool :=
  (buf.getD i 0 == 255 && buf.getD (i + 1) 0 == 216 &&
   buf.getD (i + 2) 0 == 255 && buf.getD (i + 3) 0 == 225) ||
  (buf.getD i 0 == 255 && buf.getD (i + 1) 0 == 216 &&
   buf.getD (i + 2) 0 == 255 && buf.getD (i + 3) 0 == 224)

/-- The scan loop of `parse_mpo_for_second_image`: while `i <= n - 4`, record
a match and skip 3 extra bytes (`i += 3` then `i += 1`), otherwise advance by
one byte.  `fuel` bounds the iteration count; every entry point passes
`buf.length + 1`, which the lemmas show is always sufficient since `i`
strictly increases. -/
def scanOffsets (buf : Bytes) : Nat → Nat → List Nat
  | 0, _ => []
  | fuel + 1, i =>
    if i + 4 ≤ buf.length then
      if match4 buf i then i :: scanOffsets buf fuel (i + 4)
      else scanOffsets buf fuel (i + 1)
    else []

/-- All recorded marker offsets of a buffer, in scan order. -/
def mpoOffsets (buf : Bytes) : List Nat :=
  scanOffsets buf (buf.length + 1) 0

/-- Model of `parse_mpo_for_second_image`: `none` models the `ValueError` raised when
fewer than two offsets are recorded; otherwise the `(start, length)` of the
second embedded JPEG. -/
def parse_mpo_for_second_image (buf : Bytes) : Option (Nat × Nat) :=
  let offsets := mpoOffsets buf
  if offsets.length < 2 then none
  else some (offsets.getD 1 0,
    if 3 ≤ offsets.length then offsets.getD 2 0 - offsets.getD 1 0
    else buf.length - offsets.getD 1 0)

/-- Concrete buffer for the C3 witness: two concatenated start markers. -/
def mpoBufW : Bytes := [255, 216, 255, 225, 255, 216, 255, 224]

/-! ## Frame pairing (`src/main.py`, lines 111–131) -/

/-- The pairing step of `extract_and_create_sbs_with_audio`: with
`min_frames = min(left_count, right_count)`, a zero minimum is reported as an
extraction failure carrying both counts; otherwise frame `idx` of each side is
paired for `idx in range(min_frames)` (the files `left_{idx}` / `right_{idx}`
are modelled by positional lookup in the emitted payload sequences). -/
def pairFrames (lefts rights : List Bytes) :
    Except (Nat × Nat) (List (Nat × Bytes × Bytes)) :=
  let m := min lefts.length rights.length
  if m = 0 then .error (lefts.length, rights.length)
  else .ok ((List.range m).map fun i => (i, lefts.getD i [], rights.getD i []))

/-! ## Extension recognition (`src/main.py` line 18, `src/main_images.py`
lines 122–128).  File names are ASCII byte lists. -/

/-- Python `str.lower()` on one ASCII byte. -/
def pyLowerB (b : Nat) : Nat := if 65 ≤ b ∧ b ≤ 90 then b + 32 else b

/-- Python `str.lower()` on an ASCII byte-list name. -/
def lowerBytes (name : Bytes) : Bytes := name.map pyLowerB

/-- Index of the last `'.'` (byte 46) in a name, as `str.rfind('.')` used by
`pathlib.PurePath.suffix`. -/
def rfindDot (name : Bytes) : Option Nat :=
  (name.reverse.findIdx? (fun b => b == 46)).map (fun k => name.length - 1 - k)

/-- Python `pathlib.PurePath.suffix`: the extension from the last dot, empty when the
name has no dot, starts with its only dot, or ends in a dot. -/
def pySuffixPath (name : Bytes) : Bytes :=
  match rfindDot name with
  | none => []
  | some i => if 0 < i ∧ i + 1 < name.length then name.drop i else []

/-- The byte list of the string `".avi"`. -/
def dotAvi : Bytes := [46, 97, 118, 105]

/-- The byte lists of `".mpo"`, `".jpg"`, `".jpeg"`. -/
def imgExtSet : List Bytes :=
  [[46, 109, 112, 111], [46, 106, 112, 103], [46, 106, 112, 101, 103]]

/-- The test `input_path.suffix.lower() == ".avi"` (`src/main.py` line 18). -/
def aviAccept (name : Bytes) : Bool :=
  lowerBytes (pySuffixPath name) == dotAvi

/-- The test `p.suffix.lower() in [".mpo", ".jpg", ".jpeg"]`
(`src/main_images.py` lines 123 and 128). -/
def imgAccept (name : Bytes) : Bool :=
  imgExtSet.contains (lowerBytes (pySuffixPath name))

/-- The directory-scan filter of `mpo_to_sbs`:
`[p for p in it if p.is_file() and p.suffix.lower() in [...]]`. -/
def imgScan (isFile : Bytes → Bool) (files : List Bytes) : List Bytes :=
  files.filter fun p => isFile p && imgAccept p

/-! ## Images and the SBS compositor (`src/main_images.py`, `make_sbs`;
`src/main.py` lines 117–131 use the same paste layout).

An image is its dimensions plus a total pixel function; values outside the
`[0,width)×[0,height)` rectangle are irrelevant to every statement below. -/

/-- An RGB pixel. -/
abbrev Pix := Nat × Nat × Nat

/-- A decoded raster image. -/
structure Img where
  width : Nat
  height : Nat
  px : Nat → Nat → Pix

/-- PIL `Image.new('RGB', (w, h))`: a black canvas. -/
def newRGB (w h : Nat) : Img := ⟨w, h, fun _ _ => (0, 0, 0)⟩

/-- PIL `canvas.paste(im, (x0, y0))`: the pasted rectangle shows `im`, the rest
the canvas. -/
def paste (canvas im : Img) (x0 y0 : Nat) : Img :=
  { width := canvas.width, height := canvas.height,
    px := fun x y =>
      if x0 ≤ x ∧ x < x0 + im.width ∧ y0 ≤ y ∧ y < y0 + im.height then
        im.px (x - x0) (y - y0)
      else canvas.px x y }

/-- Python `int(round(a / b))` — round half to even, over the exact rational
`a / b` (the source computes the same expression in floating point). -/
def pyRound (a b : Nat) : Nat :=
  let q := a / b
  let r := a % b
  if 2 * r < b then q
  else if b < 2 * r then q + 1
  else if q % 2 = 0 then q else q + 1

/-- Models the external resampler (`im.resize((W, H), LANCZOS)`) at its
interface: the output has exactly the requested dimensions; the pixel content
is a point-sampling stand-in for the library's LANCZOS filter, whose values
are outside the embedded core (the spec delegates codec internals). -/
def resizeModel (im : Img) (w h : Nat) : Img :=
  ⟨w, h, fun x y => im.px (x * im.width / w) (y * im.height / h)⟩

/-- The helper `scale_to_h` of `make_sbs`: identity when `H <= 0` or the height already
matches, otherwise resize to height `H` with width `int(round(w * (H/h)))`. -/
def scale_to_h (im : Img) (H : Int) : Img :=
  if H ≤ 0 ∨ (im.height : Int) = H then im
  else resizeModel im (pyRound (im.width * H.toNat) im.height) H.toNat

/-- The compositor `make_sbs(left, right, target_height)`: scale per `scale_to_h`, then paste
left at the origin and right at `(L.width, 0)` on a fresh RGB canvas. -/
def make_sbs (left right : Img) (target_height : Int) : Img :=
  if target_height ≠ 0 ∧ 0 < target_height then
    let L := scale_to_h left target_height
    let R := scale_to_h right target_height
    paste (paste (newRGB (L.width + R.width) target_height.toNat) L 0 0) R L.width 0
  else
    let H := max left.height right.height
    let L := scale_to_h left (H : Int)
    let R := scale_to_h right (H : Int)
    paste (paste (newRGB (L.width + R.width) H) L 0 0) R L.width 0

/-- Width of one side after height normalisation, as the spec words it:
unchanged at the target height, else rounded to the nearest integer
preserving aspect ratio. -/
def scaledWidth (im : Img) (H : Nat) : Nat :=
  if im.height = H then im.width else pyRound (im.width * H) im.height

/-- Concrete 2×2 image for witnesses. -/
def imgW1 : Img := ⟨2, 2, fun x y => (x, y, 1)⟩

/-- A second concrete 2×2 image for witnesses. -/
def imgW2 : Img := ⟨2, 2, fun x y => (x, y, 2)⟩

/-- A concrete 3×4 image for witnesses. -/
def imgW3 : Img := ⟨3, 4, fun x y => (x + y, 0, 0)⟩

/-! ## Frame-rate discovery (`src/main.py`, lines 42–47) -/

/-- Numeric value of a most-significant-first digit list. -/
def natOfDigits (ds : List Char) : Nat :=
  ds.foldl (fun a c => a * 10 + (c.toNat - 48)) 0

/-- Python `int(s)`: strip, optional sign, then a nonempty digit run.
(Underscore digit separators, accepted since Python 3.6, never occur in
ffprobe output and are not modelled.) -/
def pyIntOf (cs : List Char) : Option Int :=
  match stripChars cs with
  | '-' :: t =>
    if t ≠ [] ∧ t.all Char.isDigit then some (-(natOfDigits t : Int)) else none
  | '+' :: t =>
    if t ≠ [] ∧ t.all Char.isDigit then some ((natOfDigits t : Int)) else none
  | t =>
    if t ≠ [] ∧ t.all Char.isDigit then some ((natOfDigits t : Int)) else none

/-- Python `str.split('/')` on a character list. -/
def splitSlash : List Char → List (List Char)
  | [] => [[]]
  | c :: t =>
    if c = '/' then [] :: splitSlash t
    else
      match splitSlash t with
      | h :: r => (c :: h) :: r
      | [] => [[c]]

/-- Mantissa of a Python float literal: digits with an optional single dot and
at least one digit overall; yields its rational value and the unconsumed rest. -/
def floatMantissa (cs : List Char) : Option (ℚ × List Char) :=
  let I := cs.takeWhile Char.isDigit
  let rest := cs.dropWhile Char.isDigit
  match rest with
  | '.' :: r2 =>
    let F := r2.takeWhile Char.isDigit
    let rest2 := r2.dropWhile Char.isDigit
    if I.isEmpty ∧ F.isEmpty then none
    else some ((natOfDigits I : ℚ) + (natOfDigits F : ℚ) / 10 ^ F.length, rest2)
  | r => if I.isEmpty then none else some ((natOfDigits I : ℚ), r)

/-- Exponent suffix of a Python float literal, applied to mantissa `m`. -/
def floatExp (m : ℚ) : List Char → Option ℚ
  | [] => some m
  | c :: t =>
    if c = 'e' ∨ c = 'E' then
      match t with
      | '-' :: t2 =>
        if t2 ≠ [] ∧ t2.all Char.isDigit then some (m / 10 ^ natOfDigits t2) else none
      | '+' :: t2 =>
        if t2 ≠ [] ∧ t2.all Char.isDigit then some (m * 10 ^ natOfDigits t2) else none
      | t2 =>
        if t2 ≠ [] ∧ t2.all Char.isDigit then some (m * 10 ^ natOfDigits t2) else none
    else none

/-- Python `float(s)`: strip, optional sign, decimal mantissa, optional
exponent over exact rationals.  (`inf`/`nan` spellings never arise from
ffprobe's `r_frame_rate` and are not modelled.) -/
def pyFloatOf (cs : List Char) : Option ℚ :=
  match stripChars cs with
  | '-' :: t =>
    (match floatMantissa t with
     | none => none
     | some (m, rest) => floatExp m rest).map Neg.neg
  | '+' :: t =>
    (match floatMantissa t with
     | none => none
     | some (m, rest) => floatExp m rest)
  | t =>
    (match floatMantissa t with
     | none => none
     | some (m, rest) => floatExp m rest)

/-- Round half to even on a rational, as Python `round`. -/
def rhe (q : ℚ) : Int :=
  if q - ⌊q⌋ < 1 / 2 then ⌊q⌋
  else if 1 / 2 < q - ⌊q⌋ then ⌊q⌋ + 1
  else if ⌊q⌋ % 2 = 0 then ⌊q⌋ else ⌊q⌋ + 1

/-- Python `round(q, 3)`, over the exact rational value (the source computes
it in floating point). -/
def roundQ3 (q : ℚ) : ℚ := (rhe (q * 1000) : ℚ) / 1000

/-- Frame-rate discovery applied to ffprobe's stdout: parse `num/den` through
`int()` with default 30 only on a zero denominator, else parse through
`float()` with default 30 only on an empty string.  `none` models an uncaught
`ValueError`, which aborts the whole invocation (`src/main.py` lines 42–47). -/
def parseFramerate (stdout : String) : Option ℚ :=
  let raw := stripChars stdout.toList
  if raw.contains '/' then
    match splitSlash raw with
    | [a, b] =>
      match pyIntOf a, pyIntOf b with
      | some num, some den =>
        if den ≠ 0 then some (roundQ3 ((num : ℚ) / (den : ℚ))) else some 30
      | _, _ => none
    | _ => none
  else if raw.isEmpty then some 30 else pyFloatOf raw

/-! ## RIFF/AVI chunk walker (`src/main.py`, lines 61–109) -/

/-- Which stereo stream a sub-chunk belongs to. -/
inductive Side
  | left
  | right
deriving DecidableEq, BEq, Repr

/-- One emitted frame payload: its stream, its per-tag sequence index (the
`left_count` / `right_count` file numbering), and its bytes. -/
structure Chunk where
  side : Side
  idx : Nat
  payload : Bytes
deriving DecidableEq, BEq, Repr

/-- Decoded-and-stripped identifier of the left stream, `'00dc'`. -/
def leftId : List Char := ['0', '0', 'd', 'c']

/-- Decoded-and-stripped identifier of the right stream, `'02dc'`. -/
def rightId : List Char := ['0', '2', 'd', 'c']

/-- Decoded-and-stripped identifier of a list chunk, `'LIST'`. -/
def listId : List Char := ['L', 'I', 'S', 'T']

/-- Decoded-and-stripped identifier of the movie-data list, `'movi'`. -/
def moviId : List Char := ['m', 'o', 'v', 'i']

/-- The inner walk over the movie-data list (`while f.tell() < movi_end`):
read an 8-byte sub-chunk header, read exactly `frame_size` payload bytes,
emit on the two stream tags with per-tag counters, and skip one pad byte
after an odd-sized payload.  `fuel` bounds the iteration count; each
iteration advances the position by at least 8, so the entry fuel
`buf.length + 1` never runs out in a real walk. -/
def moviWalk (buf : Bytes) (moviEnd : Nat) : Nat → Nat → Nat → Nat → List Chunk
  | 0, _, _, _ => []
  | fuel + 1, pos, lc, rc =>
    if pos < moviEnd then
      let r1 := readB buf pos 8
      if r1.1.length = 8 then
        let fsize := le32 (r1.1.drop 4)
        let fid := chunkIdOf (r1.1.take 4)
        let r2 := readB buf r1.2 fsize
        let pos3 := if fsize % 2 = 1 then r2.2 + 1 else r2.2
        if fid = leftId then
          ⟨.left, lc, r2.1⟩ :: moviWalk buf moviEnd fuel pos3 (lc + 1) rc
        else if fid = rightId then
          ⟨.right, rc, r2.1⟩ :: moviWalk buf moviEnd fuel pos3 lc (rc + 1)
        else moviWalk buf moviEnd fuel pos3 lc rc
      else []
    else []

/-- The top-level chunk loop (`while True`): read an 8-byte header; descend
into a `LIST` after reading its 4-byte subtype, entering the movie walk (and
then stopping, as the source `break`s) when the subtype is `movi`; skip any
other chunk by `size` plus odd-size padding. -/
def topWalk (buf : Bytes) : Nat → Nat → List Chunk
  | 0, _ => []
  | fuel + 1, pos =>
    let r1 := readB buf pos 8
    if r1.1.length = 8 then
      let csize := le32 (r1.1.drop 4)
      let cid := chunkIdOf (r1.1.take 4)
      if cid = listId then
        let r2 := readB buf r1.2 4
        if chunkIdOf r2.1 = moviId then
          moviWalk buf (pos + 8 + csize) fuel r2.2 0 0
        else topWalk buf fuel r2.2
      else topWalk buf fuel (r1.2 + csize + csize % 2)
    else []

/-- Kinds of Python exception surfaced by the embedded code. -/
inductive PyErr
  | structError
  | valueError
  | codecError
deriving DecidableEq, Repr

/-- Result of opening one AVI file: header-check failure (the source appends
a `Skipping` line and continues) or the emitted chunk list. -/
inductive AviParse
  | invalid
  | chunks (cs : List Chunk)
deriving DecidableEq, Repr

/-- The bytes of `b'RIFF'`. -/
def riffTag : Bytes := [82, 73, 70, 70]

/-- The bytes of `b'AVI '`. -/
def aviTag : Bytes := [65, 86, 73, 32]

/-- Parsing one AVI file body: `struct.unpack('<4sI4s', f.read(12))` raises
`struct.error` on a short file (`.error`), a tag mismatch is the non-fatal
`invalid` outcome, and otherwise the chunk walk runs from position 12. -/
def parseAviFile (bytes : Bytes) : Except PyErr AviParse :=
  let r := readB bytes 0 12
  if r.1.length = 12 then
    if r.1.take 4 = riffTag ∧ r.1.drop 8 = aviTag then
      .ok (.chunks (topWalk bytes (bytes.length + 1) 12))
    else .ok .invalid
  else .error .structError

/-! ### Well-formed container generator for the walker theorems -/

/-- One sub-chunk of a movie-data list: a 4-byte tag and its payload. -/
structure SubChunk where
  tag : Bytes
  payload : Bytes
deriving DecidableEq, Repr

/-- RIFF odd-size padding of a payload. -/
def padOf (n : Nat) : Bytes := if n % 2 = 1 then [0] else []

/-- Binary encoding of one sub-chunk: tag, little-endian size, payload, pad. -/
def encodeSub (s : SubChunk) : Bytes :=
  s.tag ++ encLE32 s.payload.length ++ s.payload ++ padOf s.payload.length

/-- Binary encoding of a sub-chunk sequence. -/
def encodeSubs (subs : List SubChunk) : Bytes :=
  (subs.map encodeSub).flatten

/-- The bytes of `b'LIST'`. -/
def listTagBytes : Bytes := [76, 73, 83, 84]

/-- The bytes of `b'movi'`. -/
def moviTagBytes : Bytes := [109, 111, 118, 105]

/-- A well-formed RIFF/AVI container: 12-byte header, then one movie-data
list holding the given sub-chunks. -/
def mkAvi (subs : List SubChunk) : Bytes :=
  riffTag ++ encLE32 (16 + (encodeSubs subs).length) ++ aviTag ++
  listTagBytes ++ encLE32 (4 + (encodeSubs subs).length) ++ moviTagBytes ++
  encodeSubs subs

/-- Well-formedness of one sub-chunk: a 4-byte tag and a 32-bit payload size. -/
abbrev wfSub (s : SubChunk) : Prop :=
  s.tag.length = 4 ∧ s.payload.length < 2 ^ 32

/-- Well-formedness of the container: every sub-chunk is well formed and the
movie list size fits its 32-bit header field. -/
abbrev wfSubs (subs : List SubChunk) : Prop :=
  (∀ s ∈ subs, wfSub s) ∧ 4 + (encodeSubs subs).length < 2 ^ 32

/-- The emission described by the specification: walk the sub-chunks in file
order, emit those tagged with the left or right stream identifier together
with an auto-incrementing per-tag sequence index and the full payload. -/
def specEmission : List SubChunk → Nat → Nat → List Chunk
  | [], _, _ => []
  | s :: rest, lc, rc =>
    if chunkIdOf s.tag = leftId then
      ⟨.left, lc, s.payload⟩ :: specEmission rest (lc + 1) rc
    else if chunkIdOf s.tag = rightId then
      ⟨.right, rc, s.payload⟩ :: specEmission rest lc (rc + 1)
    else specEmission rest lc rc

/-- Does a sub-chunk carry the left-stream tag? -/
def hasLeftTag (s : SubChunk) : Bool := chunkIdOf s.tag == leftId

/-- Does a sub-chunk carry the right-stream tag? -/
def hasRightTag (s : SubChunk) : Bool := chunkIdOf s.tag == rightId

/-! ## Batch pipelines (`src/main.py` per-file loop; `src/main_images.py`
`mpo_to_sbs` / `process_one`).

The JPEG codec is an external collaborator: it appears as a
`decode : Bytes → Option Img` parameter (`none` models a decode exception). -/

/-- One status line of the image batch, `OK:`/`FAIL:` in the source. -/
inductive ImgLine
  | okL (name : Bytes)
  | failL (name : Bytes)
deriving DecidableEq, Repr

/-- Python slice `mv[off : off + cnt]`. -/
def sliceB (buf : Bytes) (off cnt : Nat) : Bytes := (buf.drop off).take cnt

/-- The per-item worker `process_one` of `mpo_to_sbs`: decode the whole buffer as the first image,
locate and decode the second; every exception is caught and becomes a `FAIL`
line for this item only.  (`make_sbs` and the save are total in the model;
EXIF transposition is external and does not affect the outcome.) -/
def process_one (decode : Bytes → Option Img) (name bytes : Bytes) : ImgLine :=
  match decode bytes with
  | none => .failL name
  | some _ =>
    match parse_mpo_for_second_image bytes with
    | none => .failL name
    | some oc =>
      match decode (sliceB bytes oc.1 oc.2) with
      | none => .failL name
      | some _ => .okL name

/-- The sequential dispatch branch of `mpo_to_sbs` (the thread-pool branch
runs the same `process_one` per item with nondeterministic completion order). -/
def imageBatch (decode : Bytes → Option Img) (items : List (Bytes × Bytes)) :
    List ImgLine :=
  items.map fun it => process_one decode it.1 it.2

/-- One AVI work item: its name, the ffprobe stdout for its frame rate, and
its container bytes. -/
structure AviItem where
  name : Bytes
  frStdout : String
  bytes : Bytes

/-- One status line of the AVI batch (`Skipping`, `Extraction failed`, or the
success line of `results`). -/
inductive AviLine
  | skipped (name : Bytes)
  | extractFailed (name : Bytes) (l r : Nat)
  | success (name : Bytes)
deriving DecidableEq, Repr

/-- The payload sequence of one stream, in emission order. -/
def chunkPayloads (cs : List Chunk) (sd : Side) : List Bytes :=
  (cs.filter fun c => c.side == sd).map Chunk.payload

/-- One iteration of the `for avi_file in avi_files` loop: frame-rate probe
(an unparsable string raises), container walk (a short 12-byte header read
raises `struct.error`), `Skipping` on bad magic, the `min_frames == 0` check,
then composition, where `Image.open` of an undecodable payload raises.
External ffmpeg invocations have no modelled effect.  `.error` aborts the
whole batch, as the only `try` wraps the entire function. -/
def aviProcessFile (decode : Bytes → Option Img) (it : AviItem) :
    Except PyErr AviLine :=
  match parseFramerate it.frStdout with
  | none => .error .valueError
  | some _ =>
    match parseAviFile it.bytes with
    | .error e => .error e
    | .ok .invalid => .ok (.skipped it.name)
    | .ok (.chunks cs) =>
      match pairFrames (chunkPayloads cs .left) (chunkPayloads cs .right) with
      | .error lr => .ok (.extractFailed it.name lr.1 lr.2)
      | .ok ps =>
        if ps.all (fun p => (decode p.2.1).isSome && (decode p.2.2).isSome) then
          .ok (.success it.name)
        else .error .codecError

/-- The whole AVI batch: one line per file unless an uncaught exception ends
the run with a single error result. -/
def aviBatch (decode : Bytes → Option Img) : List AviItem → Except PyErr (List AviLine)
  | [] => .ok []
  | it :: rest =>
    match aviProcessFile decode it with
    | .error e => .error e
    | .ok line =>
      match aviBatch decode rest with
      | .error e => .error e
      | .ok ls => .ok (line :: ls)

/-! ## Discovery and side effects (`src/main.py` lines 11–24,
`src/main_images.py` lines 106–132) -/

/-- What a path names on disk. -/
inductive PathKind
  | file
  | dir
  | missing
deriving DecidableEq, Repr

/-- The filesystem at its interface: what each path is, and what a directory
scan (`rglob` when the flag is true, else `iterdir`) yields. -/
structure FS where
  kind : Bytes → PathKind
  listing : Bool → Bytes → List Bytes

/-- Discovery outcome of a pipeline invocation. -/
inductive DiscResult
  | tasks (ts : List Bytes)
  | unsupported
  | noFiles
  | notFound
deriving DecidableEq, Repr

/-- Discovery of `mpo_to_sbs`: `outdir.mkdir(parents=True, exist_ok=True)`
runs first (recorded in the second component when the directory was missing),
then the input is classified.  A nonexistent input returns the
`Input path not found` result. -/
def mpoDiscover (fs : FS) (input outdir : Bytes) (recursive : Bool) :
    DiscResult × List Bytes :=
  let created := if fs.kind outdir = .missing then [outdir] else []
  match fs.kind input with
  | .file =>
    if imgAccept input then (.tasks [input], created) else (.unsupported, created)
  | .dir =>
    let ts := (fs.listing recursive input).filter fun p =>
      (fs.kind p == .file) && imgAccept p
    if ts.isEmpty then (.noFiles, created) else (.tasks ts, created)
  | .missing => (.notFound, created)

/-- Membership in `input_path.glob("*.avi")`: a name ending in the exact
(case-sensitive) bytes `".avi"`. -/
def globAvi (p : Bytes) : Bool := dotAvi.isSuffixOf p

/-- Discovery of `extract_and_create_sbs_with_audio`: the output directory is
created first; a single `.avi` file or a directory glob builds the list, and
an empty list — which is all a nonexistent input can produce — yields the
`No AVI files found` error. -/
def aviDiscover (fs : FS) (input outdir : Bytes) : DiscResult × List Bytes :=
  let created := if fs.kind outdir = .missing then [outdir] else []
  let avis :=
    if fs.kind input == .file && aviAccept input then [input]
    else if fs.kind input == .dir then (fs.listing false input).filter globAvi
    else []
  if avis.isEmpty then (.noFiles, created) else (.tasks avis, created)

/-! ### Concrete inputs for witnesses and counterexamples -/

/-- Two well-formed sub-chunks, one per stream (`'00dc'`, `'02dc'`). -/
def subsW : List SubChunk :=
  [⟨[48, 48, 100, 99], [170]⟩, ⟨[48, 50, 100, 99], [187]⟩]

/-- A decoder that accepts every payload. -/
def decodeAllW : Bytes → Option Img := fun _ => some imgW1

/-- A valid AVI work item (empty ffprobe output, so the frame rate defaults). -/
def aviItemA : AviItem := ⟨[97], "", mkAvi subsW⟩

/-- A zero-byte AVI work item. -/
def aviItemB : AviItem := ⟨[98], "", []⟩

/-- A concrete buffer holding one odd-sized non-list chunk. -/
def bufC4 : Bytes := [48, 48, 48, 49] ++ encLE32 5 ++ [1, 2, 3, 4, 5]

/-- A filesystem on which every path is missing. -/
def fsMissingW : FS := ⟨fun _ => .missing, fun _ _ => []⟩

/-! ### Scanner lemmas -/

theorem scanOffsets_sound (buf : Bytes) :
    ∀ fuel i, ∀ o ∈ scanOffsets buf fuel i,
      i ≤ o ∧ o + 4 ≤ buf.length ∧ match4 buf o = true := by
  intro fuel
  induction fuel with
  | zero => intro i o ho; simp [scanOffsets] at ho
  | succ f ih =>
    intro i o ho
    by_cases hb : i + 4 ≤ buf.length
    · by_cases hm : match4 buf i
      · simp only [scanOffsets, hb, hm, if_pos, if_true, List.mem_cons] at ho
        rcases ho with rfl | ho
        · exact ⟨le_refl _, hb, hm⟩
        · rcases ih (i + 4) o ho with ⟨h1, h2, h3⟩
          exact ⟨by omega, h2, h3⟩
      · simp only [scanOffsets, hb, hm, if_true, if_false] at ho
        rcases ih (i + 1) o ho with ⟨h1, h2, h3⟩
        exact ⟨by omega, h2, h3⟩
    · simp [scanOffsets, hb] at ho

theorem scanOffsets_sorted (buf : Bytes) :
    ∀ fuel i, List.Sorted (· < ·) (scanOffsets buf fuel i) := by
  intro fuel
  induction fuel with
  | zero => intro i; simp [scanOffsets]
  | succ f ih =>
    intro i
    by_cases hb : i + 4 ≤ buf.length
    · by_cases hm : match4 buf i
      · simp only [scanOffsets, hb, hm, if_true]
        refine List.sorted_cons.2 ⟨?_, ih (i + 4)⟩
        intro o ho
        have := (scanOffsets_sound buf f (i + 4) o ho).1
        omega
      · simpa [scanOffsets, hb, hm] using ih (i + 1)
    · simp [scanOffsets, hb]

theorem scanOffsets_complete (buf : Bytes) :
    ∀ fuel i, buf.length ≤ fuel + i →
      ∀ j, i ≤ j → j + 4 ≤ buf.length → match4 buf j = true →
        j ∈ scanOffsets buf fuel i ∨
        ∃ o ∈ scanOffsets buf fuel i, o < j ∧ j < o + 4 := by
  intro fuel
  induction fuel with
  | zero => intro i hfi j hij hj _; omega
  | succ f ih =>
    intro i hfi j hij hj hmj
    have hb : i + 4 ≤ buf.length := by omega
    by_cases hm : match4 buf i
    · simp only [scanOffsets, hb, hm, if_true]
      rcases Nat.lt_or_ge j (i + 4) with hlt | hge
      · rcases Nat.eq_or_lt_of_le hij with rfl | hij'
        · left; exact List.mem_cons_self _ _
        · right; exact ⟨i, List.mem_cons_self _ _, hij', hlt⟩
      · rcases ih (i + 4) (by omega) j hge hj hmj with h | ⟨o, ho, h1, h2⟩
        · left; exact List.mem_cons_of_mem _ h
        · right; exact ⟨o, List.mem_cons_of_mem _ ho, h1, h2⟩
    · have hij' : i + 1 ≤ j := by
        rcases Nat.eq_or_lt_of_le hij with rfl | h
        · exact absurd hmj (by simp [hm])
        · omega
      simp only [scanOffsets, hb, hm, if_true, if_false]
      exact ih (i + 1) (by omega) j hij' hj hmj

/-- C3: the marker locator records, in strictly ascending order, offsets that
each carry one of the two 4-byte start patterns; any matching offset it does
not record lies within the 3 skipped bytes after a recorded match; it fails
exactly when fewer than two offsets are recorded; and on success it returns
the second offset together with the distance to the third offset when one
exists, else to the end of the buffer. -/
theorem C3_mpo_marker_locator (buf : Bytes) :
    List.Sorted (· < ·) (mpoOffsets buf) ∧
    (∀ o ∈ mpoOffsets buf, o + 4 ≤ buf.length ∧ match4 buf o = true) ∧
    (∀ j, j + 4 ≤ buf.length → match4 buf j = true →
      j ∈ mpoOffsets buf ∨ ∃ o ∈ mpoOffsets buf, o < j ∧ j < o + 4) ∧
    (parse_mpo_for_second_image buf = none ↔ (mpoOffsets buf).length < 2) ∧
    (2 ≤ (mpoOffsets buf).length →
      parse_mpo_for_second_image buf =
        some ((mpoOffsets buf).getD 1 0,
          if 3 ≤ (mpoOffsets buf).length then
            (mpoOffsets buf).getD 2 0 - (mpoOffsets buf).getD 1 0
          else buf.length - (mpoOffsets buf).getD 1 0)) := by
  refine ⟨scanOffsets_sorted buf _ _,
    fun o ho => ((scanOffsets_sound buf _ _ o ho).2),
    fun j hj hmj => scanOffsets_complete buf _ 0 (by omega) j (Nat.zero_le _) hj hmj,
    ?_, ?_⟩
  · constructor
    · intro h
      by_contra hlen
      simp only [parse_mpo_for_second_image, if_neg hlen] at h
      exact Option.noConfusion h
    · intro h
      simp [parse_mpo_for_second_image, h]
  · intro h
    have : ¬ (mpoOffsets buf).length < 2 := by omega
    simp [parse_mpo_for_second_image, this]

theorem C3_mpo_marker_locator_witness :
    2 ≤ (mpoOffsets mpoBufW).length ∧
    parse_mpo_for_second_image mpoBufW = some (4, 4) := by
  refine ⟨by decide, ?_⟩
  have h := (C3_mpo_marker_locator mpoBufW).2.2.2.2 (by decide)
  rw [h]; decide

/-- C2: the pairing step succeeds with exactly `min(L, R)` composite pairs,
pairing payload `i` of the left sequence with payload `i` of the right
sequence unconditionally, and it fails reporting both counts exactly when
`min(L, R) = 0`. -/
theorem C2_frame_pairing (lefts rights : List Bytes) :
    (pairFrames lefts rights = .error (lefts.length, rights.length) ↔
      min lefts.length rights.length = 0) ∧
    (min lefts.length rights.length ≠ 0 →
      ∃ ps, pairFrames lefts rights = .ok ps ∧
        ps.length = min lefts.length rights.length ∧
        ∀ i, i < ps.length →
          ps.getD i (0, [], []) = (i, lefts.getD i [], rights.getD i [])) := by
  constructor
  · constructor
    · intro h
      by_contra hm
      simp only [pairFrames, if_neg hm] at h
      exact Except.noConfusion h
    · intro h
      simp [pairFrames, h]
  · intro hm
    refine ⟨(List.range (min lefts.length rights.length)).map
        (fun i => (i, lefts.getD i [], rights.getD i [])),
      by simp [pairFrames, hm], by simp, ?_⟩
    intro i hi
    simp only [List.length_map, List.length_range] at hi
    rw [List.getD_eq_getElem _ _ (by simpa using hi)]
    simp

theorem C2_frame_pairing_witness :
    min ([[170]] : List Bytes).length ([[171], [172]] : List Bytes).length ≠ 0 ∧
    ∃ ps, pairFrames [[170]] [[171], [172]] = .ok ps ∧
      ps.length = min ([[170]] : List Bytes).length ([[171], [172]] : List Bytes).length ∧
      ∀ i, i < ps.length →
        ps.getD i (0, [], []) =
          (i, ([[170]] : List Bytes).getD i [], ([[171], [172]] : List Bytes).getD i []) :=
  ⟨by decide, (C2_frame_pairing [[170]] [[171], [172]]).2 (by decide)⟩

/-! ### Helper lemmas for case-insensitive extension recognition -/

theorem pyLowerB_eq_dot {b : Nat} : pyLowerB b = 46 ↔ b = 46 := by
  unfold pyLowerB
  split <;> omega

theorem pyLowerB_idem (b : Nat) : pyLowerB (pyLowerB b) = pyLowerB b := by
  by_cases h : 65 ≤ b ∧ b ≤ 90
  · have h2 : ¬ (65 ≤ b + 32 ∧ b + 32 ≤ 90) := by omega
    simp [pyLowerB, h, h2]
    omega
  · simp [pyLowerB, h]

theorem findIdxDot_map_lower (l : Bytes) :
    (l.map pyLowerB).findIdx? (fun b => b == 46) = l.findIdx? (fun b => b == 46) := by
  induction l with
  | nil => simp
  | cons a t ih =>
    by_cases ha : a = 46
    · subst ha; simp [List.findIdx?_cons, pyLowerB]
    · have h1 : (pyLowerB a == 46) = false := by
        simp [pyLowerB_eq_dot.ne, ha]
      have h2 : (a == 46) = false := by simp [ha]
      simp [List.findIdx?_cons, h1, h2, ih]

theorem rfindDot_lower (name : Bytes) :
    rfindDot (lowerBytes name) = rfindDot name := by
  unfold rfindDot lowerBytes
  rw [← List.map_reverse, findIdxDot_map_lower, List.length_map]

theorem pySuffixPath_lower (name : Bytes) :
    pySuffixPath (lowerBytes name) = lowerBytes (pySuffixPath name) := by
  unfold pySuffixPath
  rw [rfindDot_lower]
  cases h : rfindDot name with
  | none => simp [lowerBytes]
  | some i =>
    simp only [lowerBytes, List.length_map]
    split
    · exact (List.map_drop ..).symm
    · simp

theorem lowerBytes_idem (name : Bytes) :
    lowerBytes (lowerBytes name) = lowerBytes name := by
  unfold lowerBytes
  rw [List.map_map]
  exact List.map_congr_left fun b _ => pyLowerB_idem b

/-- C10: extension recognition is the lower-cased membership test in both
pipelines — a single file is accepted exactly when the lower-cased
`pathlib` suffix is `".avi"` (AVI pipeline) or one of `".mpo"`, `".jpg"`,
`".jpeg"` (image pipeline); both tests are invariant under letter case of the
input name; and the image pipeline's directory scan selects exactly the
regular files passing the same test. -/
theorem C10_extension_recognition :
    (∀ name : Bytes, aviAccept name = true ↔ lowerBytes (pySuffixPath name) = dotAvi) ∧
    (∀ name : Bytes, imgAccept name = true ↔ lowerBytes (pySuffixPath name) ∈ imgExtSet) ∧
    (∀ name : Bytes, aviAccept (lowerBytes name) = aviAccept name ∧
      imgAccept (lowerBytes name) = imgAccept name) ∧
    (∀ (isFile : Bytes → Bool) (files : List Bytes) (p : Bytes),
      p ∈ imgScan isFile files ↔ p ∈ files ∧ isFile p = true ∧ imgAccept p = true) := by
  refine ⟨fun name => by simp [aviAccept],
    fun name => by simp [imgAccept, List.contains, List.elem_iff], ?_, ?_⟩
  · intro name
    constructor
    · unfold aviAccept
      rw [pySuffixPath_lower, lowerBytes_idem]
    · unfold imgAccept
      rw [pySuffixPath_lower, lowerBytes_idem]
  · intro isFile files p
    simp [imgScan, List.mem_filter, and_assoc]

theorem C10_extension_recognition_witness :
    aviAccept [80, 72, 79, 84, 79, 46, 65, 86, 73] =
      aviAccept (lowerBytes [80, 72, 79, 84, 79, 46, 65, 86, 73]) :=
  (C10_extension_recognition.2.2.1 [80, 72, 79, 84, 79, 46, 65, 86, 73]).1.symm

/-! ### Compositor lemmas -/

theorem scale_to_h_spec (im : Img) (H : Int) (hH : 0 < H) :
    scale_to_h im H =
      if im.height = H.toNat then im
      else resizeModel im (pyRound (im.width * H.toNat) im.height) H.toNat := by
  unfold scale_to_h
  by_cases h : im.height = H.toNat
  · rw [if_pos h, if_pos]
    right
    omega
  · rw [if_neg h, if_neg]
    push_neg
    constructor
    · omega
    · omega

theorem scale_to_h_width (im : Img) (H : Int) (hH : 0 < H) :
    (scale_to_h im H).width = scaledWidth im H.toNat := by
  rw [scale_to_h_spec im H hH]
  unfold scaledWidth
  by_cases h : im.height = H.toNat
  · simp [h]
  · simp [h, resizeModel]

/-- C5: with equal source dimensions and no target height, the composite is
`2W × H`, its left half is pixel-identical to the left image and its right
half to the right image — neither side is resampled. -/
theorem C5_lossless_composition (l r : Img) (tH : Int)
    (hW : l.width = r.width) (hH : l.height = r.height) (ht : tH ≤ 0) :
    (make_sbs l r tH).width = 2 * l.width ∧
    (make_sbs l r tH).height = l.height ∧
    (∀ x y, x < l.width → y < l.height → (make_sbs l r tH).px x y = l.px x y) ∧
    (∀ x y, x < r.width → y < r.height →
      (make_sbs l r tH).px (l.width + x) y = r.px x y) := by
  have hcond : ¬(tH ≠ 0 ∧ 0 < tH) := by omega
  have hmaxl : max l.height r.height = l.height := by rw [hH, max_self]
  have hmaxr : max l.height r.height = r.height := by rw [hH, max_self]
  have hsl : scale_to_h l ((max l.height r.height : Nat) : Int) = l := by
    unfold scale_to_h
    rw [if_pos]
    right
    exact_mod_cast hmaxl.symm
  have hsr : scale_to_h r ((max l.height r.height : Nat) : Int) = r := by
    unfold scale_to_h
    rw [if_pos]
    right
    exact_mod_cast hmaxr.symm
  have hmk : make_sbs l r tH =
      paste (paste (newRGB (l.width + r.width) l.height) l 0 0) r l.width 0 := by
    simp only [make_sbs, if_neg hcond]
    rw [hsl, hsr, hmaxl]
  refine ⟨?_, ?_, ?_, ?_⟩
  · rw [hmk]
    simp only [paste, newRGB]
    omega
  · rw [hmk]
    simp [paste, newRGB]
  · intro x y hx hy
    rw [hmk]
    simp only [paste, newRGB]
    rw [if_neg (by omega), if_pos (by omega)]
    simp
  · intro x y hx hy
    rw [hmk]
    simp only [paste, newRGB]
    rw [if_pos (by omega)]
    simp

theorem C5_lossless_composition_witness :
    (make_sbs imgW1 imgW2 0).width = 2 * imgW1.width :=
  (C5_lossless_composition imgW1 imgW2 0 rfl rfl (by decide)).1

/-- C6: the compositor's scaling policy — a positive target height `H` gives a
composite of height `H` whose two halves have the aspect-preserving rounded
widths, sides already at height `H` passing through unchanged; a target height
that is unset (0) or negative gives `H = max(left.height, right.height)` and
scales exactly the side(s) whose height differs from `H`. -/
theorem C6_scaling_policy (l r : Img) (tH : Int)
    (hl : 0 < l.height) (_hr : 0 < r.height) :
    (0 < tH →
      (make_sbs l r tH).height = tH.toNat ∧
      (make_sbs l r tH).width = scaledWidth l tH.toNat + scaledWidth r tH.toNat ∧
      (l.height = tH.toNat → scale_to_h l tH = l) ∧
      (r.height = tH.toNat → scale_to_h r tH = r) ∧
      (l.height ≠ tH.toNat →
        scale_to_h l tH = resizeModel l (pyRound (l.width * tH.toNat) l.height) tH.toNat) ∧
      (r.height ≠ tH.toNat →
        scale_to_h r tH = resizeModel r (pyRound (r.width * tH.toNat) r.height) tH.toNat)) ∧
    (tH ≤ 0 →
      (make_sbs l r tH).height = max l.height r.height ∧
      (make_sbs l r tH).width =
        scaledWidth l (max l.height r.height) + scaledWidth r (max l.height r.height) ∧
      (l.height = max l.height r.height →
        scale_to_h l ((max l.height r.height : Nat) : Int) = l) ∧
      (r.height = max l.height r.height →
        scale_to_h r ((max l.height r.height : Nat) : Int) = r) ∧
      (l.height ≠ max l.height r.height →
        scale_to_h l ((max l.height r.height : Nat) : Int) =
          resizeModel l (pyRound (l.width * max l.height r.height) l.height)
            (max l.height r.height)) ∧
      (r.height ≠ max l.height r.height →
        scale_to_h r ((max l.height r.height : Nat) : Int) =
          resizeModel r (pyRound (r.width * max l.height r.height) r.height)
            (max l.height r.height))) := by
  constructor
  · intro htH
    have hcond : tH ≠ 0 ∧ 0 < tH := ⟨by omega, htH⟩
    have hmk : make_sbs l r tH =
        paste (paste (newRGB ((scale_to_h l tH).width + (scale_to_h r tH).width)
          tH.toNat) (scale_to_h l tH) 0 0) (scale_to_h r tH) (scale_to_h l tH).width 0 := by
      simp only [make_sbs, if_pos hcond]
    refine ⟨?_, ?_, ?_, ?_, ?_, ?_⟩
    · rw [hmk]; simp [paste, newRGB]
    · rw [hmk]
      simp only [paste, newRGB]
      rw [scale_to_h_width l tH htH, scale_to_h_width r tH htH]
    · intro h
      rw [scale_to_h_spec l tH htH, if_pos h]
    · intro h
      rw [scale_to_h_spec r tH htH, if_pos h]
    · intro h
      rw [scale_to_h_spec l tH htH, if_neg h]
    · intro h
      rw [scale_to_h_spec r tH htH, if_neg h]
  · intro htH
    have hcond : ¬(tH ≠ 0 ∧ 0 < tH) := by omega
    have hH0 : (0 : Int) < ((max l.height r.height : Nat) : Int) := by
      have : 0 < max l.height r.height := lt_of_lt_of_le hl (le_max_left _ _)
      exact_mod_cast this
    have htn : ((max l.height r.height : Nat) : Int).toNat = max l.height r.height := by
      omega
    have hmk : make_sbs l r tH =
        paste (paste (newRGB ((scale_to_h l ((max l.height r.height : Nat) : Int)).width +
          (scale_to_h r ((max l.height r.height : Nat) : Int)).width)
          (max l.height r.height)) (scale_to_h l ((max l.height r.height : Nat) : Int)) 0 0)
          (scale_to_h r ((max l.height r.height : Nat) : Int))
          (scale_to_h l ((max l.height r.height : Nat) : Int)).width 0 := by
      simp only [make_sbs, if_neg hcond]
    refine ⟨?_, ?_, ?_, ?_, ?_, ?_⟩
    · rw [hmk]; simp [paste, newRGB]
    · rw [hmk]
      simp only [paste, newRGB]
      rw [scale_to_h_width l _ hH0, scale_to_h_width r _ hH0, htn]
    · intro h
      rw [scale_to_h_spec l _ hH0, htn, if_pos h]
    · intro h
      rw [scale_to_h_spec r _ hH0, htn, if_pos h]
    · intro h
      rw [scale_to_h_spec l _ hH0, htn, if_neg h]
    · intro h
      rw [scale_to_h_spec r _ hH0, htn, if_neg h]

theorem C6_scaling_policy_witness :
    (make_sbs imgW1 imgW3 2).height = (2 : Int).toNat :=
  ((C6_scaling_policy imgW1 imgW3 2 (by decide) (by decide)).1 (by decide)).1

/-! ### Frame-rate theorems -/

/-- C7 counterexample: the claim says an unparsable frame-rate string defaults
to 30, but `"abc"` (no `/`, nonempty, not a float literal) raises a
`ValueError` instead, aborting the invocation. -/
theorem C7_framerate_counterexample :
    parseFramerate ("abc" : String) = none ∧ parseFramerate ("abc" : String) ≠ some 30 := by
  have h : parseFramerate ("abc" : String) = none := by decide
  exact ⟨h, by rw [h]; exact fun hh => Option.noConfusion hh⟩

/-- C7 amended: the default 30 is used exactly for an empty metadata string or
a `num/den` rational whose parts parse as integers with denominator 0; every
other unparsable string raises (`none`), it does not default. -/
theorem C7_framerate_amended (s : String) :
    (stripChars s.toList = [] → parseFramerate s = some 30) ∧
    (∀ a b n, splitSlash (stripChars s.toList) = [a, b] →
      (stripChars s.toList).contains '/' = true →
      pyIntOf a = some n → pyIntOf b = some 0 → parseFramerate s = some 30) ∧
    ((stripChars s.toList).contains '/' = false → stripChars s.toList ≠ [] →
      pyFloatOf (stripChars s.toList) = none → parseFramerate s = none) ∧
    ((stripChars s.toList).contains '/' = true →
      (∀ a b, splitSlash (stripChars s.toList) ≠ [a, b]) → parseFramerate s = none) ∧
    (∀ a b, splitSlash (stripChars s.toList) = [a, b] →
      (stripChars s.toList).contains '/' = true →
      pyIntOf a = none ∨ pyIntOf b = none → parseFramerate s = none) := by
  refine ⟨?_, ?_, ?_, ?_, ?_⟩
  · intro h
    have h' : stripChars s.data = [] := h
    simp [parseFramerate, h']
  · intro a b n hsplit hslash ha hb
    simp only [parseFramerate, hslash, if_true, hsplit, ha, hb]
    simp
  · intro hslash hne hfloat
    simp only [parseFramerate, hslash]
    simp only [Bool.false_eq_true, if_false, List.isEmpty_iff, hfloat]
    rw [if_neg hne]
  · intro hslash hnot
    simp only [parseFramerate, hslash, if_true]
  · intro a b hsplit hslash hnone
    simp only [parseFramerate, hslash, if_true, hsplit]
    rcases hnone with h | h
    · rw [h]
    · rcases ha : pyIntOf a with _ | n
      · rfl
      · rw [h]

theorem C7_framerate_amended_witness :
    splitSlash (stripChars ("30/0" : String).toList) = [['3', '0'], ['0']] ∧
    parseFramerate ("30/0" : String) = some 30 :=
  ⟨by decide, (C7_framerate_amended ("30/0" : String)).2.1 ['3', '0'] ['0'] 30
    (by decide) (by decide) (by decide) (by decide)⟩

/-! ### Walker lemmas -/

theorem readB_exact (buf : Bytes) (pos k : Nat) (xs rest : Bytes)
    (hdrop : buf.drop pos = xs ++ rest) (hlen : xs.length = k) :
    readB buf pos k = (xs, pos + k) := by
  unfold readB
  rw [hdrop, List.take_left' hlen]
  simp [hlen]

theorem drop_shift (buf : Bytes) (pos d : Nat) (xs rest : Bytes)
    (hdrop : buf.drop pos = xs ++ rest) (hlen : xs.length = d) :
    buf.drop (pos + d) = rest := by
  rw [← List.drop_drop, hdrop, List.drop_left' hlen]

theorem le32_encLE32 (n : Nat) (h : n < 2 ^ 32) : le32 (encLE32 n) = n := by
  simp only [le32, encLE32]
  omega

theorem encodeSub_length (s : SubChunk) (htag : s.tag.length = 4) :
    (encodeSub s).length = 8 + s.payload.length + (padOf s.payload.length).length := by
  simp [encodeSub, encLE32, htag]
  omega

theorem encodeSubs_cons (s : SubChunk) (rest : List SubChunk) :
    encodeSubs (s :: rest) = encodeSub s ++ encodeSubs rest := by
  simp [encodeSubs]

theorem padOf_length (n : Nat) :
    (padOf n).length = if n % 2 = 1 then 1 else 0 := by
  unfold padOf
  split <;> rfl

theorem moviWalk_encodeSubs (subs : List SubChunk) :
    ∀ (buf rest : Bytes) (pos lc rc fuel : Nat),
      (∀ s ∈ subs, wfSub s) →
      buf.drop pos = encodeSubs subs ++ rest →
      subs.length < fuel →
      moviWalk buf (pos + (encodeSubs subs).length) fuel pos lc rc =
        specEmission subs lc rc := by
  induction subs with
  | nil =>
    intro buf rest pos lc rc fuel _ _ hfuel
    obtain ⟨f, rfl⟩ : ∃ f, fuel = f + 1 := ⟨fuel - 1, by omega⟩
    simp [moviWalk, encodeSubs, specEmission]
  | cons s rest' ih =>
    intro buf rest pos lc rc fuel hwf hdrop hfuel
    obtain ⟨f, rfl⟩ : ∃ f, fuel = f + 1 := ⟨fuel - 1, by omega⟩
    obtain ⟨htag, hsz⟩ := hwf s (List.mem_cons_self s rest')
    have hb1 : buf.drop pos = (s.tag ++ encLE32 s.payload.length) ++
        (s.payload ++ (padOf s.payload.length ++ (encodeSubs rest' ++ rest))) := by
      rw [hdrop, encodeSubs_cons]
      simp [encodeSub, List.append_assoc]
    have hlen8 : (s.tag ++ encLE32 s.payload.length).length = 8 := by
      simp [encLE32, htag]
    have hread1 : readB buf pos 8 = (s.tag ++ encLE32 s.payload.length, pos + 8) :=
      readB_exact _ _ _ _ _ hb1 hlen8
    have hdrop8 : buf.drop (pos + 8) =
        s.payload ++ (padOf s.payload.length ++ (encodeSubs rest' ++ rest)) :=
      drop_shift _ _ _ _ _ hb1 hlen8
    have hread2 : readB buf (pos + 8) s.payload.length =
        (s.payload, pos + 8 + s.payload.length) :=
      readB_exact _ _ _ _ _ hdrop8 rfl
    have hdropP : buf.drop (pos + 8 + s.payload.length) =
        padOf s.payload.length ++ (encodeSubs rest' ++ rest) := by
      have h := drop_shift _ _ _ _ _ hdrop8 rfl
      simpa [Nat.add_assoc] using h
    have hdropE : buf.drop (pos + 8 + s.payload.length + (padOf s.payload.length).length) =
        encodeSubs rest' ++ rest :=
      drop_shift _ _ _ _ _ hdropP rfl
    have htake : (s.tag ++ encLE32 s.payload.length).take 4 = s.tag :=
      List.take_left' htag
    have hdrop4 : (s.tag ++ encLE32 s.payload.length).drop 4 = encLE32 s.payload.length :=
      List.drop_left' htag
    have hle : le32 (encLE32 s.payload.length) = s.payload.length :=
      le32_encLE32 _ hsz
    have hmoviEnd : pos + (encodeSubs (s :: rest')).length =
        pos + 8 + s.payload.length + (padOf s.payload.length).length +
          (encodeSubs rest').length := by
      have h1 : (encodeSubs (s :: rest')).length =
          (encodeSub s).length + (encodeSubs rest').length := by
        rw [encodeSubs_cons, List.length_append]
      have h2 := encodeSub_length s htag
      omega
    have hlt : pos < pos + (encodeSubs (s :: rest')).length := by
      have h1 : (encodeSubs (s :: rest')).length =
          (encodeSub s).length + (encodeSubs rest').length := by
        rw [encodeSubs_cons, List.length_append]
      have h2 := encodeSub_length s htag
      omega
    have hpos3 : (if s.payload.length % 2 = 1 then pos + 8 + s.payload.length + 1
        else pos + 8 + s.payload.length) =
        pos + 8 + s.payload.length + (padOf s.payload.length).length := by
      by_cases hp : s.payload.length % 2 = 1 <;> simp [padOf_length, hp]
    have hih := fun lc' rc' => ih buf rest
      (pos + 8 + s.payload.length + (padOf s.payload.length).length) lc' rc' f
      (fun t ht => hwf t (List.mem_cons_of_mem _ ht)) hdropE (by simpa using Nat.lt_of_succ_lt_succ (by simpa using hfuel))
    simp only [moviWalk, if_pos hlt, hread1, hlen8, if_true, hdrop4, htake, hle,
      hread2, hpos3, specEmission]
    rw [hmoviEnd]
    by_cases hL : chunkIdOf s.tag = leftId
    · rw [if_pos hL, if_pos hL, hih (lc + 1) rc]
    · by_cases hR : chunkIdOf s.tag = rightId
      · rw [if_neg hL, if_neg hL, if_pos hR, if_pos hR, hih lc (rc + 1)]
      · rw [if_neg hL, if_neg hL, if_neg hR, if_neg hR, hih lc rc]

theorem topWalk_mkAvi (subs : List SubChunk) (hwf : wfSubs subs) (fuel : Nat)
    (hfuel : subs.length + 1 < fuel) :
    topWalk (mkAvi subs) fuel 12 = specEmission subs 0 0 := by
  obtain ⟨f, rfl⟩ : ∃ f, fuel = f + 1 := ⟨fuel - 1, by omega⟩
  have hsplit : mkAvi subs =
      (riffTag ++ encLE32 (16 + (encodeSubs subs).length) ++ aviTag) ++
      ((listTagBytes ++ encLE32 (4 + (encodeSubs subs).length)) ++
        (moviTagBytes ++ encodeSubs subs)) := by
    simp [mkAvi, List.append_assoc]
  have hd12 : (mkAvi subs).drop 12 =
      (listTagBytes ++ encLE32 (4 + (encodeSubs subs).length)) ++
        (moviTagBytes ++ encodeSubs subs) := by
    rw [hsplit]
    exact List.drop_left' (by simp [riffTag, aviTag, encLE32])
  have hlen8 : (listTagBytes ++ encLE32 (4 + (encodeSubs subs).length)).length = 8 := by
    simp [listTagBytes, encLE32]
  have hread1 : readB (mkAvi subs) 12 8 =
      (listTagBytes ++ encLE32 (4 + (encodeSubs subs).length), 12 + 8) :=
    readB_exact _ _ _ _ _ hd12 hlen8
  have hd20 : (mkAvi subs).drop (12 + 8) = moviTagBytes ++ encodeSubs subs :=
    drop_shift _ _ _ _ _ hd12 hlen8
  have hread2 : readB (mkAvi subs) (12 + 8) 4 = (moviTagBytes, 12 + 8 + 4) :=
    readB_exact _ _ _ _ _ hd20 (by simp [moviTagBytes])
  have hd24 : (mkAvi subs).drop (12 + 8 + 4) = encodeSubs subs ++ [] := by
    rw [drop_shift _ _ _ _ _ hd20 (by simp [moviTagBytes]), List.append_nil]
  have htake : (listTagBytes ++ encLE32 (4 + (encodeSubs subs).length)).take 4 =
      listTagBytes := List.take_left' (by simp [listTagBytes])
  have hdrop4 : (listTagBytes ++ encLE32 (4 + (encodeSubs subs).length)).drop 4 =
      encLE32 (4 + (encodeSubs subs).length) := List.drop_left' (by simp [listTagBytes])
  have hle : le32 (encLE32 (4 + (encodeSubs subs).length)) =
      4 + (encodeSubs subs).length := le32_encLE32 _ hwf.2
  have hlist : chunkIdOf listTagBytes = listId := by decide
  have hmovi : chunkIdOf moviTagBytes = moviId := by decide
  simp only [topWalk, hread1, hlen8, if_true, htake, hdrop4, hle, hlist,
    hread2, hmovi, if_pos rfl]
  have harith : 12 + 8 + (4 + (encodeSubs subs).length) =
      12 + 8 + 4 + (encodeSubs subs).length := by omega
  rw [harith]
  exact moviWalk_encodeSubs subs (mkAvi subs) [] (12 + 8 + 4) 0 0 f hwf.1 hd24
    (by omega)

theorem specEmission_left (subs : List SubChunk) :
    ∀ lc rc,
      ((specEmission subs lc rc).filter fun c => c.side == Side.left).map
          Chunk.payload =
        (subs.filter hasLeftTag).map SubChunk.payload ∧
      ((specEmission subs lc rc).filter fun c => c.side == Side.left).map
          Chunk.idx =
        List.range' lc (subs.filter hasLeftTag).length := by
  have hbll : (Side.left == Side.left) = true := rfl
  have hbrl : (Side.right == Side.left) = false := rfl
  induction subs with
  | nil => intro lc rc; simp [specEmission]
  | cons s rest ih =>
    intro lc rc
    by_cases hL : chunkIdOf s.tag = leftId
    · have hflag : hasLeftTag s = true := by simp [hasLeftTag, hL]
      simp only [specEmission, if_pos hL, List.filter_cons, hflag]
      have h1 := ih (lc + 1) rc
      simp [hbll, h1.1, h1.2, List.range']
    · have hflag : hasLeftTag s = false := by simp [hasLeftTag, hL]
      by_cases hR : chunkIdOf s.tag = rightId
      · simp only [specEmission, if_neg hL, if_pos hR, List.filter_cons, hflag]
        have h1 := ih lc (rc + 1)
        simp [hbrl, h1.1, h1.2]
      · simp only [specEmission, if_neg hL, if_neg hR, List.filter_cons, hflag]
        have h1 := ih lc rc
        simp [h1.1, h1.2]

theorem specEmission_right (subs : List SubChunk) :
    ∀ lc rc,
      ((specEmission subs lc rc).filter fun c => c.side == Side.right).map
          Chunk.payload =
        (subs.filter hasRightTag).map SubChunk.payload ∧
      ((specEmission subs lc rc).filter fun c => c.side == Side.right).map
          Chunk.idx =
        List.range' rc (subs.filter hasRightTag).length := by
  have hbrr : (Side.right == Side.right) = true := rfl
  have hblr : (Side.left == Side.right) = false := rfl
  induction subs with
  | nil => intro lc rc; simp [specEmission]
  | cons s rest ih =>
    intro lc rc
    by_cases hL : chunkIdOf s.tag = leftId
    · have hflag : hasRightTag s = false := by
        simp only [hasRightTag]
        rw [hL]
        decide
      simp only [specEmission, if_pos hL, List.filter_cons, hflag]
      have h1 := ih (lc + 1) rc
      simp [hblr, h1.1, h1.2]
    · by_cases hR : chunkIdOf s.tag = rightId
      · have hflag : hasRightTag s = true := by simp [hasRightTag, hR]
        simp only [specEmission, if_neg hL, if_pos hR, List.filter_cons, hflag]
        have h1 := ih lc (rc + 1)
        simp [hbrr, h1.1, h1.2, List.range']
      · have hflag : hasRightTag s = false := by simp [hasRightTag, hR]
        simp only [specEmission, if_neg hL, if_neg hR, List.filter_cons, hflag]
        have h1 := ih lc rc
        simp [h1.1, h1.2]

theorem length_le_encodeSubs (subs : List SubChunk) :
    subs.length ≤ (encodeSubs subs).length := by
  induction subs with
  | nil => simp [encodeSubs]
  | cons s r ih =>
    rw [encodeSubs_cons, List.length_append, List.length_cons]
    have h1 : 1 ≤ (encodeSub s).length := by
      simp [encodeSub, encLE32]
      omega
    omega

theorem mkAvi_length (subs : List SubChunk) :
    (mkAvi subs).length = 24 + (encodeSubs subs).length := by
  simp [mkAvi, riffTag, aviTag, listTagBytes, moviTagBytes, encLE32]
  omega

/-- C1: walking a well-formed RIFF/AVI container whose movie-data list holds
the given sub-chunks (interleaved in any order) emits exactly the left-tagged
payloads and exactly the right-tagged payloads, each payload being the full
declared-size byte run of its sub-chunk, in ascending file-position order,
with per-tag sequence indices `0, 1, 2, ...`. -/
theorem C1_walker_emission (subs : List SubChunk) (hwf : wfSubs subs) :
    ∃ cs, parseAviFile (mkAvi subs) = .ok (.chunks cs) ∧
      cs = specEmission subs 0 0 ∧
      ((cs.filter fun c => c.side == Side.left).map Chunk.payload =
        (subs.filter hasLeftTag).map SubChunk.payload) ∧
      ((cs.filter fun c => c.side == Side.left).map Chunk.idx =
        List.range (subs.filter hasLeftTag).length) ∧
      ((cs.filter fun c => c.side == Side.right).map Chunk.payload =
        (subs.filter hasRightTag).map SubChunk.payload) ∧
      ((cs.filter fun c => c.side == Side.right).map Chunk.idx =
        List.range (subs.filter hasRightTag).length) := by
  have hsplit : mkAvi subs =
      (riffTag ++ encLE32 (16 + (encodeSubs subs).length) ++ aviTag) ++
      ((listTagBytes ++ encLE32 (4 + (encodeSubs subs).length)) ++
        (moviTagBytes ++ encodeSubs subs)) := by
    simp [mkAvi, List.append_assoc]
  have hlen12 : (riffTag ++ encLE32 (16 + (encodeSubs subs).length) ++ aviTag).length
      = 12 := by simp [riffTag, aviTag, encLE32]
  have hread0 : readB (mkAvi subs) 0 12 =
      (riffTag ++ encLE32 (16 + (encodeSubs subs).length) ++ aviTag, 0 + 12) :=
    readB_exact (mkAvi subs) 0 12
      (riffTag ++ encLE32 (16 + (encodeSubs subs).length) ++ aviTag)
      ((listTagBytes ++ encLE32 (4 + (encodeSubs subs).length)) ++
        (moviTagBytes ++ encodeSubs subs))
      (by rw [List.drop_zero]; exact hsplit) hlen12
  have htake4 : (riffTag ++ encLE32 (16 + (encodeSubs subs).length) ++ aviTag).take 4
      = riffTag := by
    rw [List.append_assoc]
    exact List.take_left' (by simp [riffTag])
  have hdrop8 : (riffTag ++ encLE32 (16 + (encodeSubs subs).length) ++ aviTag).drop 8
      = aviTag :=
    List.drop_left' (by simp [riffTag, encLE32])
  refine ⟨specEmission subs 0 0, ?_, rfl, ?_, ?_, ?_, ?_⟩
  · simp only [parseAviFile, hread0, hlen12, if_true, htake4, hdrop8, and_self,
      if_pos]
    rw [topWalk_mkAvi subs hwf _ ?_]
    have hsubs := length_le_encodeSubs subs
    have hml := mkAvi_length subs
    omega
  · exact (specEmission_left subs 0 0).1
  · rw [(specEmission_left subs 0 0).2, List.range_eq_range']
  · exact (specEmission_right subs 0 0).1
  · rw [(specEmission_right subs 0 0).2, List.range_eq_range']

theorem C1_walker_emission_witness :
    wfSubs subsW ∧
    ∃ cs, parseAviFile (mkAvi subsW) = .ok (.chunks cs) ∧
      cs = specEmission subsW 0 0 ∧
      ((cs.filter fun c => c.side == Side.left).map Chunk.payload =
        (subsW.filter hasLeftTag).map SubChunk.payload) ∧
      ((cs.filter fun c => c.side == Side.left).map Chunk.idx =
        List.range (subsW.filter hasLeftTag).length) ∧
      ((cs.filter fun c => c.side == Side.right).map Chunk.payload =
        (subsW.filter hasRightTag).map SubChunk.payload) ∧
      ((cs.filter fun c => c.side == Side.right).map Chunk.idx =
        List.range (subsW.filter hasRightTag).length) :=
  ⟨by decide, C1_walker_emission subsW (by decide)⟩

/-- C4: consuming one chunk always advances the read position by
`8 + size + (size mod 2)` — one extra pad byte for an odd declared size, none
for an even one — both for a skipped top-level chunk and for a sub-chunk
inside the movie-data list (where the emission and per-tag counters follow
the stream tag). -/
theorem C4_padding :
    (∀ (buf rest : Bytes) (pos fuel : Nat) (tag : Bytes) (sz : Nat),
      tag.length = 4 → sz < 2 ^ 32 →
      buf.drop pos = tag ++ encLE32 sz ++ rest →
      chunkIdOf tag ≠ listId →
      topWalk buf (fuel + 1) pos = topWalk buf fuel (pos + 8 + sz + sz % 2)) ∧
    (∀ (buf rest : Bytes) (moviEnd pos lc rc fuel : Nat) (tag payload : Bytes)
        (sz : Nat),
      tag.length = 4 → sz < 2 ^ 32 → payload.length = sz →
      buf.drop pos = tag ++ encLE32 sz ++ payload ++ rest →
      pos < moviEnd →
      moviWalk buf moviEnd (fuel + 1) pos lc rc =
        (if chunkIdOf tag = leftId then [⟨.left, lc, payload⟩]
         else if chunkIdOf tag = rightId then [⟨.right, rc, payload⟩] else []) ++
        moviWalk buf moviEnd fuel (pos + 8 + sz + sz % 2)
          (if chunkIdOf tag = leftId then lc + 1 else lc)
          (if chunkIdOf tag = rightId then rc + 1 else rc)) := by
  constructor
  · intro buf rest pos fuel tag sz htag hsz hdrop hne
    have hb1 : buf.drop pos = (tag ++ encLE32 sz) ++ rest := hdrop
    have hlen8 : (tag ++ encLE32 sz).length = 8 := by simp [encLE32, htag]
    have hread1 := readB_exact buf pos 8 _ _ hb1 hlen8
    have htake : (tag ++ encLE32 sz).take 4 = tag := List.take_left' htag
    have hdrop4 : (tag ++ encLE32 sz).drop 4 = encLE32 sz := List.drop_left' htag
    simp only [topWalk, hread1, hlen8, if_true, htake, hdrop4,
      le32_encLE32 sz hsz, if_neg hne]
  · intro buf rest moviEnd pos lc rc fuel tag payload sz htag hsz hpl hdrop hlt
    have hb1 : buf.drop pos = (tag ++ encLE32 sz) ++ (payload ++ rest) := by
      rw [← List.append_assoc]
      exact hdrop
    have hlen8 : (tag ++ encLE32 sz).length = 8 := by simp [encLE32, htag]
    have hread1 := readB_exact buf pos 8 _ _ hb1 hlen8
    have hdrop8 : buf.drop (pos + 8) = payload ++ rest :=
      drop_shift _ _ _ _ _ hb1 hlen8
    have hread2 : readB buf (pos + 8) sz = (payload, pos + 8 + sz) := by
      have h := readB_exact buf (pos + 8) sz payload rest hdrop8 hpl
      simpa using h
    have htake : (tag ++ encLE32 sz).take 4 = tag := List.take_left' htag
    have hdrop4 : (tag ++ encLE32 sz).drop 4 = encLE32 sz := List.drop_left' htag
    have hpos3 : (if sz % 2 = 1 then pos + 8 + sz + 1 else pos + 8 + sz) =
        pos + 8 + sz + sz % 2 := by
      by_cases hp : sz % 2 = 1
      · simp [hp]
      · have : sz % 2 = 0 := by omega
        simp [hp, this]
    simp only [moviWalk, if_pos hlt, hread1, hlen8, if_true, htake, hdrop4,
      le32_encLE32 sz hsz, hread2, hpos3]
    have hne1 : (leftId : List Char) ≠ rightId := by decide
    have hne2 : (rightId : List Char) ≠ leftId := by decide
    by_cases hL : chunkIdOf tag = leftId
    · have hR : chunkIdOf tag ≠ rightId := by
        rw [hL]
        decide
      simp [hL, hR, hne1]
    · by_cases hR : chunkIdOf tag = rightId
      · simp [hL, hR, hne2]
      · simp [hL, hR]

theorem C4_padding_witness :
    chunkIdOf [48, 48, 48, 49] ≠ listId ∧
    topWalk bufC4 1 0 = topWalk bufC4 0 (0 + 8 + 5 + 5 % 2) :=
  ⟨by decide, C4_padding.1 bufC4 [1, 2, 3, 4, 5] 0 0 [48, 48, 48, 49] 5
    (by decide) (by decide) (by decide) (by decide)⟩

/-! ### Batch theorems -/

/-- C8 counterexample: a well-formed file alone yields its success line, but
putting a zero-byte file in the middle of the batch aborts the whole run with
a single `struct.error` result — not one outcome per work item. -/
theorem C8_batch_abort_counterexample :
    aviBatch decodeAllW [aviItemA] = .ok [.success [97]] ∧
    aviBatch decodeAllW [aviItemA, aviItemB, aviItemA] = .error .structError := by
  constructor
  · rfl
  · rfl

/-- C8 amended: the still-image pipeline does isolate failures — one outcome
per work item, each depending only on its own item; the AVI pipeline does
not: once the items before it processed without raising, a file whose header
read returns fewer than 12 bytes (for example a zero-byte file) raises
`struct.error` and aborts the entire batch. -/
theorem C8_failure_isolation_amended :
    (∀ (decode : Bytes → Option Img) (items : List (Bytes × Bytes)),
      (imageBatch decode items).length = items.length ∧
      ∀ i, i < items.length →
        (imageBatch decode items).getD i (.failL []) =
          process_one decode (items.getD i ([], [])).1 (items.getD i ([], [])).2) ∧
    (∀ (decode : Bytes → Option Img) (pre : List AviItem) (x : AviItem)
        (post : List AviItem) (ls : List AviLine),
      aviBatch decode pre = .ok ls →
      (parseFramerate x.frStdout).isSome = true →
      x.bytes.length < 12 →
      aviBatch decode (pre ++ x :: post) = .error .structError) := by
  constructor
  · intro decode items
    refine ⟨by simp [imageBatch], ?_⟩
    intro i hi
    rw [List.getD_eq_getElem _ _ (by simpa [imageBatch] using hi),
      List.getD_eq_getElem _ _ hi]
    simp [imageBatch]
  · intro decode pre x post ls hpre hfr hlen
    have hstruct : aviProcessFile decode x = .error .structError := by
      obtain ⟨fr, hfr'⟩ := Option.isSome_iff_exists.mp hfr
      have hp : parseAviFile x.bytes = .error .structError := by
        unfold parseAviFile
        have hl : ((x.bytes.drop 0).take 12).length ≠ 12 := by
          simp only [List.drop_zero, List.length_take]
          omega
        simp only [readB]
        rw [if_neg hl]
      simp only [aviProcessFile, hfr', hp]
    induction pre generalizing ls with
    | nil =>
      simp only [List.nil_append, aviBatch, hstruct]
    | cons p pre' ih =>
      simp only [aviBatch] at hpre
      rcases hp1 : aviProcessFile decode p with e | line
      · rw [hp1] at hpre
        exact absurd hpre (by simp)
      · rw [hp1] at hpre
        rcases hp2 : aviBatch decode pre' with e2 | ls2
        · rw [hp2] at hpre
          exact absurd hpre (by simp)
        · rw [hp2] at hpre
          simp only [List.cons_append, aviBatch, List.append_eq, hp1, ih ls2 hp2]

theorem C8_failure_isolation_amended_witness :
    (parseFramerate aviItemB.frStdout).isSome = true ∧
    aviItemB.bytes.length < 12 ∧
    aviBatch decodeAllW [aviItemB] = .error .structError :=
  ⟨by decide, by decide,
    C8_failure_isolation_amended.2 decodeAllW [] aviItemB [] [] rfl
      (by decide) (by decide)⟩

/-! ### Discovery theorems -/

/-- C9 counterexample: with a nonexistent input path the image pipeline does
return the not-found result before any work item exists, but the output
directory has already been created — a partial side effect the claim denies. -/
theorem C9_side_effect_counterexample :
    mpoDiscover fsMissingW [105] [111] false = (.notFound, [[111]]) ∧
    (mpoDiscover fsMissingW [105] [111] false).2 ≠ [] := by
  constructor
  · rfl
  · decide

/-- C9 amended: a nonexistent input aborts discovery before any work item —
as `InputNotFound` in the image pipeline but as the no-files error in the AVI
pipeline — yet both pipelines have already created the output directory when
it was missing. -/
theorem C9_input_validation_amended (fs : FS) (input outdir : Bytes) (rec : Bool)
    (hmiss : fs.kind input = .missing) :
    (mpoDiscover fs input outdir rec).1 = .notFound ∧
    (aviDiscover fs input outdir).1 = .noFiles ∧
    (fs.kind outdir = .missing →
      (mpoDiscover fs input outdir rec).2 = [outdir] ∧
      (aviDiscover fs input outdir).2 = [outdir]) := by
  refine ⟨?_, ?_, ?_⟩
  · simp [mpoDiscover, hmiss]
  · simp [aviDiscover, hmiss]
  · intro hout
    constructor
    · simp [mpoDiscover, hmiss, hout]
    · simp [aviDiscover, hmiss, hout]

theorem C9_input_validation_amended_witness :
    fsMissingW.kind [105] = .missing ∧
    (mpoDiscover fsMissingW [105] [111] false).1 = .notFound :=
  ⟨rfl, (C9_input_validation_amended fsMissingW [105] [111] false rfl).1⟩
